import Mathlib

/- Shallow embedding of the gif-league server's room state machine
   (socket handlers: create-room, join-room, start-game, submit-topic,
   submit-gif, submit-vote, next-round, plus the connection-time
   reconnection rebind).  Connection handles and session ids are strings;
   the JS falsy check on winnerOfLastRound is modelled as equality with
   the empty string.  Each handler is modelled as a function on the Room
   it addresses (the room-lookup miss leaves every room unchanged and is
   therefore not part of the per-room state). -/

abbrev Handle := String

structure Player where
  id : Handle
  sessionId : String
  name : String
  points : Nat
deriving Repr, DecidableEq

structure Submission where
  playerId : Handle
  gifUrl : String
deriving Repr, DecidableEq

structure Vote where
  voterId : Handle
  votedPlayerId : Handle
deriving Repr, DecidableEq

inductive Status where
  | lobby
  | topicSelection
  | gifSelection
  | voting
  | reveal
  | gameOver
deriving Repr, DecidableEq

structure Room where
  id : String
  hostId : Handle
  players : List Player
  status : Status
  currentRound : Nat
  maxRounds : Nat
  topic : String
  submissions : List Submission
  votes : List Vote
  winnerOfLastRound : Handle
deriving Repr, DecidableEq

/- create-room handler: fresh room in lobby with the creator as sole
   player, host, and initial winnerOfLastRound. -/
def createRoom (roomId : String) (callerId : Handle) (sessionId playerName : String) : Room :=
  { id := roomId
    hostId := callerId
    players := [{ id := callerId, sessionId := sessionId, name := playerName, points := 0 }]
    status := Status.lobby
    currentRound := 0
    maxRounds := 10
    topic := ""
    submissions := []
    votes := []
    winnerOfLastRound := callerId }

/- room.players.find(p => p.sessionId === sid) followed by !== undefined. -/
def hasSession : List Player → String → Bool
  | [], _ => false
  | p :: ps, sid => if p.sessionId = sid then true else hasSession ps sid

/- existingPlayer.id = socket.id: update the first player whose sessionId
   matches, leaving everyone else untouched. -/
def rebindFirst (sid : String) (newId : Handle) : List Player → List Player
  | [] => []
  | p :: ps => if p.sessionId = sid then { p with id := newId } :: ps
               else p :: rebindFirst sid newId ps

/- join-room handler body for an existing room: the reconnection branch
   fires first, regardless of phase; otherwise a non-lobby room rejects
   with an error and a lobby room appends a fresh player. -/
def joinRoom (r : Room) (callerId : Handle) (sid playerName : String) : Room :=
  if hasSession r.players sid then
    { r with players := rebindFirst sid callerId r.players }
  else if r.status ≠ Status.lobby then r
  else { r with players := r.players ++ [{ id := callerId, sessionId := sid, name := playerName, points := 0 }] }

/- io.on connection: if the socket's session maps into a room, rebind
   that player's connection handle (a no-op when no player matches). -/
def reconnect (r : Room) (sid : String) (newHandle : Handle) : Room :=
  { r with players := rebindFirst sid newHandle r.players }

/- start-game handler: only the host check exists in the code; no player
   count check and no phase check. -/
def startGame (r : Room) (callerId : Handle) : Room :=
  if r.hostId = callerId then
    { r with status := Status.topicSelection, currentRound := 1 }
  else r

/- submit-topic handler: judge check only (winnerOfLastRound, or host as
   fallback when winnerOfLastRound is falsy); no phase check in the code. -/
def submitTopic (r : Room) (callerId : Handle) (t : String) : Room :=
  if r.winnerOfLastRound = callerId ∨ (r.hostId = callerId ∧ r.winnerOfLastRound = "") then
    { r with topic := t, status := Status.gifSelection, submissions := [] }
  else r

/- findIndex(s => s.playerId === socket.id) !== -1. -/
def hasSubmitted : List Submission → Handle → Bool
  | [], _ => false
  | s :: ss, c => if s.playerId = c then true else hasSubmitted ss c

/- update the first submission by this player, else push a new one. -/
def upsertSubmission : List Submission → Handle → String → List Submission
  | [], c, url => [{ playerId := c, gifUrl := url }]
  | s :: ss, c, url => if s.playerId = c then { s with gifUrl := url } :: ss
                       else s :: upsertSubmission ss c url

/- submit-gif handler: requires gif-selection; upserts the caller's
   submission; advances to voting (clearing votes) exactly when the
   submission count reaches the player count. -/
def submitGif (r : Room) (callerId : Handle) (url : String) : Room :=
  if r.status = Status.gifSelection then
    let subs2 := upsertSubmission r.submissions callerId url
    if subs2.length = r.players.length then
      { r with submissions := subs2, status := Status.voting, votes := [] }
    else { r with submissions := subs2 }
  else r

/- update the first vote by this voter, else push a new one. -/
def upsertVote : List Vote → Handle → Handle → List Vote
  | [], c, voted => [{ voterId := c, votedPlayerId := voted }]
  | v :: vs, c, voted => if v.voterId = c then { v with votedPlayerId := voted } :: vs
                         else v :: upsertVote vs c voted

/- voteCounts[v.votedPlayerId] = (voteCounts[v.votedPlayerId] || 0) + 1
   over a string-keyed object, i.e. an insertion-ordered association list. -/
def bump : List (Handle × Nat) → Handle → List (Handle × Nat)
  | [], pid => [(pid, 1)]
  | e :: rest, pid => if e.1 = pid then (e.1, e.2 + 1) :: rest else e :: bump rest pid

def countVotes (vs : List Vote) : List (Handle × Nat) :=
  vs.foldl (fun acc v => bump acc v.votedPlayerId) []

/- object property read with default 0. -/
def lookupN : List (Handle × Nat) → Handle → Nat
  | [], _ => 0
  | e :: rest, pid => if e.1 = pid then e.2 else lookupN rest pid

/- the running-maximum loop over Object.entries(voteCounts):
   count > maxVotes resets the winner list, count === maxVotes appends. -/
def winStep (acc : Nat × List Handle) (e : Handle × Nat) : Nat × List Handle :=
  if acc.1 < e.2 then (e.2, [e.1])
  else if e.2 = acc.1 then (acc.1, acc.2 ++ [e.1])
  else acc

def selectWinners (es : List (Handle × Nat)) : Nat × List Handle :=
  es.foldl winStep (0, [])

/- players.find(p => p.id === winnerId); if (p) p.points += 1:
   increment the first matching player only, no-op when none matches. -/
def awardOne : List Player → Handle → List Player
  | [], _ => []
  | p :: ps, w => if p.id = w then { p with points := p.points + 1 } :: ps
                  else p :: awardOne ps w

def awardPoints (players : List Player) (winners : List Handle) : List Player :=
  winners.foldl awardOne players

/- submit-vote handler: requires voting; drops self-votes silently;
   upserts the caller's vote; on quorum tallies, awards points, records
   winners[0] (falsy when absent) and moves to reveal or game-over. -/
def submitVote (r : Room) (callerId voted : Handle) : Room :=
  if r.status = Status.voting then
    if voted = callerId then r
    else
      let votes2 := upsertVote r.votes callerId voted
      if votes2.length = r.players.length then
        let winners := (selectWinners (countVotes votes2)).2
        { r with votes := votes2
                 players := awardPoints r.players winners
                 winnerOfLastRound := winners.headD ""
                 status := if r.maxRounds ≤ r.currentRound then Status.gameOver
                           else Status.reveal }
      else { r with votes := votes2 }
  else r

/- next-round handler: only the phase check exists in the code; there is
   no host check. -/
def nextRound (r : Room) (_callerId : Handle) : Room :=
  if r.status = Status.reveal then
    { r with currentRound := r.currentRound + 1
             status := Status.topicSelection
             submissions := []
             votes := [] }
  else r

/- One inbound action addressed to a room. -/
inductive GameAction where
  | join (callerId sessionId playerName : String)
  | rejoin (sessionId newHandle : String)
  | start (callerId : String)
  | pickTopic (callerId topicStr : String)
  | gif (callerId gifUrl : String)
  | vote (callerId votedPlayerId : String)
  | nextR (callerId : String)
deriving Repr, DecidableEq

def applyAction (r : Room) : GameAction → Room
  | GameAction.join c sid pn => joinRoom r c sid pn
  | GameAction.rejoin sid h => reconnect r sid h
  | GameAction.start c => startGame r c
  | GameAction.pickTopic c t => submitTopic r c t
  | GameAction.gif c url => submitGif r c url
  | GameAction.vote c voted => submitVote r c voted
  | GameAction.nextR c => nextRound r c

def runActs (r : Room) (as : List GameAction) : Room :=
  as.foldl applyAction r

/- A room state that some sequence of actions can produce from creation. -/
def ReachableRoom (r : Room) : Prop :=
  ∃ roomId callerId sessionId playerName as,
    runActs (createRoom roomId callerId sessionId playerName) as = r

/- join-room repeated with the same session id. -/
def joinMany (r : Room) (sid pn : String) (calls : List Handle) : Room :=
  calls.foldl (fun room c => joinRoom room c sid pn) r

def playerData (p : Player) : String × String × Nat :=
  (p.sessionId, p.name, p.points)

def sumPoints : List Player → Nat
  | [] => 0
  | p :: ps => p.points + sumPoints ps

/- Concrete scenario shared by several checks: host a creates, b joins,
   a starts, a picks a topic, both submit gifs, reaching the voting phase. -/
def demoRoom : Room :=
  runActs (createRoom "900000" "a" "sa" "A")
    [GameAction.join "b" "sb" "B", GameAction.start "a",
     GameAction.pickTopic "a" "T", GameAction.gif "a" "u1", GameAction.gif "b" "u2"]

/- demoRoom with one vote recorded (a voted for b). -/
def demoRoom1 : Room :=
  applyAction demoRoom (GameAction.vote "a" "b")

lemma rebindFirst_length (sid : String) (c : Handle) (ps : List Player) :
    (rebindFirst sid c ps).length = ps.length := by
  induction ps with
  | nil => rfl
  | cons p ps ih =>
    by_cases h : p.sessionId = sid <;> simp [rebindFirst, h, ih]

lemma rebindFirst_data (sid : String) (c : Handle) (ps : List Player) :
    (rebindFirst sid c ps).map playerData = ps.map playerData := by
  induction ps with
  | nil => rfl
  | cons p ps ih =>
    by_cases h : p.sessionId = sid <;> simp [rebindFirst, h, ih, playerData]

lemma hasSession_rebindFirst (sid sid2 : String) (c : Handle) (ps : List Player) :
    hasSession (rebindFirst sid2 c ps) sid = hasSession ps sid := by
  induction ps with
  | nil => rfl
  | cons p ps ih =>
    by_cases h : p.sessionId = sid2 <;> simp [rebindFirst, hasSession, h, ih]

lemma rebindFirst_mem_ne {p : Player} {ps : List Player} {sid : String}
    (hmem : p ∈ ps) (hne : p.sessionId ≠ sid) (c : Handle) :
    p ∈ rebindFirst sid c ps := by
  induction ps with
  | nil => cases hmem
  | cons q ps ih =>
    rcases List.mem_cons.mp hmem with rfl | hmem2
    · have h : ¬ p.sessionId = sid := hne
      simp [rebindFirst, h]
    · by_cases h : q.sessionId = sid
      · simp only [rebindFirst, if_pos h]
        exact List.mem_cons_of_mem _ hmem2
      · simp only [rebindFirst, if_neg h]
        exact List.mem_cons_of_mem _ (ih hmem2)

lemma upsertSubmission_length_bounds (ss : List Submission) (c : Handle) (url : String) :
    ss.length ≤ (upsertSubmission ss c url).length ∧
      (upsertSubmission ss c url).length ≤ ss.length + 1 := by
  induction ss with
  | nil => simp [upsertSubmission]
  | cons s ss ih =>
    obtain ⟨ih1, ih2⟩ := ih
    by_cases h : s.playerId = c <;> simp [upsertSubmission, h] <;> omega

lemma upsertSubmission_length_of_hasSubmitted {ss : List Submission} {c : Handle}
    (url : String) (h : hasSubmitted ss c = true) :
    (upsertSubmission ss c url).length = ss.length := by
  induction ss with
  | nil => simp [hasSubmitted] at h
  | cons s ss ih =>
    by_cases hs : s.playerId = c
    · simp [upsertSubmission, hs]
    · simp only [hasSubmitted, if_neg hs] at h
      simp [upsertSubmission, hs, ih h]

lemma upsertSubmission_stores (ss : List Submission) (c : Handle) (url : String) :
    ∃ s ∈ upsertSubmission ss c url, s.playerId = c ∧ s.gifUrl = url := by
  induction ss with
  | nil => exact ⟨{ playerId := c, gifUrl := url }, by simp [upsertSubmission]⟩
  | cons s ss ih =>
    by_cases h : s.playerId = c
    · refine ⟨{ s with gifUrl := url }, ?_, h, rfl⟩
      simp [upsertSubmission, h]
    · obtain ⟨t, ht, ht2⟩ := ih
      refine ⟨t, ?_, ht2⟩
      simp only [upsertSubmission, if_neg h]
      exact List.mem_cons_of_mem _ ht

lemma upsertVote_ne {vs : List Vote} {c voted : Handle} (hne : voted ≠ c) :
    (∀ v ∈ vs, v.voterId ≠ v.votedPlayerId) →
      ∀ v ∈ upsertVote vs c voted, v.voterId ≠ v.votedPlayerId := by
  induction vs with
  | nil =>
    intro _ v hv
    simp only [upsertVote, List.mem_singleton] at hv
    subst hv
    exact Ne.symm hne
  | cons v0 vs ih =>
    intro h v hv
    by_cases hh : v0.voterId = c
    · simp only [upsertVote, if_pos hh, List.mem_cons] at hv
      rcases hv with rfl | hv2
      · show v0.voterId ≠ voted
        rw [hh]
        exact Ne.symm hne
      · exact h v (List.mem_cons_of_mem _ hv2)
    · simp only [upsertVote, if_neg hh, List.mem_cons] at hv
      rcases hv with rfl | hv2
      · exact h v (List.mem_cons_self _ _)
      · exact ih (fun w hw => h w (List.mem_cons_of_mem _ hw)) v hv2

lemma awardOne_length (ps : List Player) (w : Handle) :
    (awardOne ps w).length = ps.length := by
  induction ps with
  | nil => rfl
  | cons p ps ih =>
    by_cases h : p.id = w <;> simp [awardOne, h, ih]

lemma awardPoints_length (winners : List Handle) (ps : List Player) :
    (awardPoints ps winners).length = ps.length := by
  induction winners generalizing ps with
  | nil => rfl
  | cons w ws ih =>
    show (awardPoints (awardOne ps w) ws).length = ps.length
    rw [ih, awardOne_length]

lemma awardOne_ids (ps : List Player) (w : Handle) :
    (awardOne ps w).map (fun p => p.id) = ps.map (fun p => p.id) := by
  induction ps with
  | nil => rfl
  | cons p ps ih =>
    by_cases h : p.id = w <;> simp [awardOne, h, ih]

lemma awardOne_sum {ps : List Player} {w : Handle}
    (h : w ∈ ps.map (fun p => p.id)) :
    sumPoints (awardOne ps w) = sumPoints ps + 1 := by
  induction ps with
  | nil => simp at h
  | cons p ps ih =>
    by_cases hp : p.id = w
    · simp [awardOne, hp, sumPoints]
      omega
    · have h2 : w ∈ ps.map (fun p => p.id) := by
        simp only [List.map_cons, List.mem_cons] at h
        rcases h with h | h
        · exact absurd h.symm hp
        · exact h
      simp [awardOne, hp, sumPoints, ih h2]
      omega

lemma awardPoints_sum {winners : List Handle} {ps : List Player}
    (h : ∀ w ∈ winners, w ∈ ps.map (fun p => p.id)) :
    sumPoints (awardPoints ps winners) = sumPoints ps + winners.length := by
  induction winners generalizing ps with
  | nil => simp [awardPoints]
  | cons w ws ih =>
    show sumPoints (awardPoints (awardOne ps w) ws) = sumPoints ps + (w :: ws).length
    rw [ih, awardOne_sum (h w (List.mem_cons_self _ _))]
    · simp
      omega
    · intro x hx
      rw [awardOne_ids]
      exact h x (List.mem_cons_of_mem _ hx)

/- The maximum count observed while folding over the tally entries. -/
def maxCnt (es : List (Handle × Nat)) : Nat :=
  es.foldl (fun m e => max m e.2) 0

/- The candidates whose count equals the observed maximum, in entry order:
   this is the wording of the specification for the winner set. -/
def argmaxKeys (es : List (Handle × Nat)) : List Handle :=
  (es.filter (fun e => e.2 == maxCnt es)).map Prod.fst

lemma foldl_max_le (es : List (Handle × Nat)) :
    ∀ M : Nat, M ≤ es.foldl (fun m e => max m e.2) M := by
  induction es with
  | nil => intro M; exact le_refl M
  | cons e rest ih =>
    intro M
    exact le_trans (le_max_left M e.2) (ih (max M e.2))

lemma winStep_fold (es : List (Handle × Nat)) :
    ∀ (M : Nat) (w : List Handle),
      es.foldl winStep (M, w) =
        (es.foldl (fun m e => max m e.2) M,
         (if es.foldl (fun m e => max m e.2) M = M then w else []) ++
           (es.filter (fun e => e.2 == es.foldl (fun m e => max m e.2) M)).map Prod.fst) := by
  induction es with
  | nil =>
    intro M w
    simp
  | cons e rest ih =>
    intro M w
    simp only [List.foldl_cons]
    by_cases h1 : M < e.2
    · have hmax : max M e.2 = e.2 := Nat.max_eq_right (Nat.le_of_lt h1)
      rw [show winStep (M, w) e = (e.2, [e.1]) from by simp [winStep, h1]]
      rw [ih e.2 [e.1]]
      simp only [hmax]
      have hle : e.2 ≤ rest.foldl (fun m e => max m e.2) e.2 := foldl_max_le rest e.2
      have hNM : rest.foldl (fun m e => max m e.2) e.2 ≠ M := by omega
      rw [if_neg hNM, List.filter_cons]
      by_cases h2 : rest.foldl (fun m e => max m e.2) e.2 = e.2
      · rw [if_pos h2]
        simp [h2]
      · rw [if_neg h2]
        have : (e.2 == rest.foldl (fun m e => max m e.2) e.2) = false := by
          simp only [beq_eq_false_iff_ne, ne_eq]
          omega
        simp [this]
    · have hmax : max M e.2 = M := Nat.max_eq_left (Nat.not_lt.mp h1)
      have hle : M ≤ rest.foldl (fun m e => max m e.2) M := foldl_max_le rest M
      by_cases h2 : e.2 = M
      · rw [show winStep (M, w) e = (M, w ++ [e.1]) from by
          simp [winStep, h1, h2]]
        rw [ih M (w ++ [e.1])]
        simp only [hmax]
        rw [List.filter_cons]
        by_cases h3 : rest.foldl (fun m e => max m e.2) M = M
        · rw [if_pos h3]
          have : (e.2 == rest.foldl (fun m e => max m e.2) M) = true := by
            simp only [beq_iff_eq]
            omega
          simp [this, h3, h2]
        · rw [if_neg h3]
          have : (e.2 == rest.foldl (fun m e => max m e.2) M) = false := by
            simp only [beq_eq_false_iff_ne, ne_eq]
            omega
          simp [this, h3]
      · rw [show winStep (M, w) e = (M, w) from by simp [winStep, h1, h2]]
        rw [ih M w]
        simp only [hmax]
        rw [List.filter_cons]
        have he2 : e.2 < M := Nat.lt_of_le_of_ne (Nat.not_lt.mp h1) h2
        have : (e.2 == rest.foldl (fun m e => max m e.2) M) = false := by
          simp only [beq_eq_false_iff_ne, ne_eq]
          omega
        simp [this]

/- The tally loop computes exactly the maximal count together with every
   candidate whose count attains it, in entry order. -/
lemma selectWinners_eq (es : List (Handle × Nat)) :
    selectWinners es = (maxCnt es, argmaxKeys es) := by
  rw [selectWinners, winStep_fold es 0 []]
  simp [maxCnt, argmaxKeys]

lemma bump_lookup (acc : List (Handle × Nat)) (q pid : Handle) :
    lookupN (bump acc q) pid = lookupN acc pid + (if q = pid then 1 else 0) := by
  induction acc with
  | nil =>
    by_cases h : q = pid <;> simp [bump, lookupN, h]
  | cons e rest ih =>
    by_cases he : e.1 = q
    · by_cases hp : e.1 = pid
      · have hqp : q = pid := he.symm.trans hp
        simp [bump, lookupN, he, hp, hqp]
      · have hqp : ¬ q = pid := fun hq => hp (he.trans hq)
        simp [bump, lookupN, he, hp, hqp]
    · by_cases hp : e.1 = pid
      · have hqp : ¬ q = pid := fun hq => he (hp.trans hq.symm)
        have hpq : ¬ pid = q := fun hq => he (hp.trans hq)
        simp [bump, lookupN, he, hp, hqp, hpq]
      · simp [bump, lookupN, he, hp, ih]

lemma countVotes_go (vs : List Vote) :
    ∀ (acc : List (Handle × Nat)) (pid : Handle),
      lookupN (vs.foldl (fun acc v => bump acc v.votedPlayerId) acc) pid =
        lookupN acc pid + vs.countP (fun v => v.votedPlayerId == pid) := by
  induction vs with
  | nil =>
    intro acc pid
    simp
  | cons v vs ih =>
    intro acc pid
    simp only [List.foldl_cons, List.countP_cons]
    rw [ih (bump acc v.votedPlayerId) pid, bump_lookup]
    by_cases h : v.votedPlayerId = pid <;> simp [h] <;> omega

/- The tally object maps each candidate to the number of stored votes
   naming that candidate. -/
lemma countVotes_lookup (vs : List Vote) (pid : Handle) :
    lookupN (countVotes vs) pid = vs.countP (fun v => v.votedPlayerId == pid) := by
  rw [countVotes, countVotes_go]
  simp [lookupN]

lemma bump_keys_mem {acc : List (Handle × Nat)} {q x : Handle}
    (h : x ∈ (bump acc q).map Prod.fst) :
    x ∈ acc.map Prod.fst ∨ x = q := by
  induction acc with
  | nil =>
    simp [bump] at h
    exact Or.inr h
  | cons e rest ih =>
    by_cases he : e.1 = q
    · simp only [bump, if_pos he, List.map_cons, List.mem_cons] at h
      rcases h with h | h
      · exact Or.inl (by simp [h])
      · exact Or.inl (by simp [h])
    · simp only [bump, if_neg he, List.map_cons, List.mem_cons] at h
      rcases h with h | h
      · exact Or.inl (by simp [h])
      · rcases ih h with h2 | h2
        · exact Or.inl (by simp [h2])
        · exact Or.inr h2

lemma bump_keys_nodup {acc : List (Handle × Nat)} (hnd : (acc.map Prod.fst).Nodup)
    (q : Handle) : ((bump acc q).map Prod.fst).Nodup := by
  induction acc with
  | nil => simp [bump]
  | cons e rest ih =>
    have hnd' := hnd
    rw [List.map_cons] at hnd'
    rcases List.nodup_cons.mp hnd' with ⟨hni, hnd2⟩
    by_cases he : e.1 = q
    · simpa [bump, he] using hnd
    · simp only [bump, if_neg he, List.map_cons]
      refine List.nodup_cons.mpr ⟨?_, ih hnd2⟩
      intro hmem
      rcases bump_keys_mem hmem with h | h
      · exact hni h
      · exact he h

lemma countVotes_keys_nodup_go (vs : List Vote) :
    ∀ acc : List (Handle × Nat), (acc.map Prod.fst).Nodup →
      (((vs.foldl (fun acc v => bump acc v.votedPlayerId) acc)).map Prod.fst).Nodup := by
  induction vs with
  | nil => intro acc h; simpa using h
  | cons v vs ih =>
    intro acc h
    exact ih _ (bump_keys_nodup h v.votedPlayerId)

/- Each candidate appears at most once in the tally object. -/
lemma countVotes_keys_nodup (vs : List Vote) :
    ((countVotes vs).map Prod.fst).Nodup :=
  countVotes_keys_nodup_go vs [] (by simp)

lemma countVotes_keys_subset_go (vs : List Vote) :
    ∀ (acc : List (Handle × Nat)) (x : Handle),
      x ∈ (vs.foldl (fun acc v => bump acc v.votedPlayerId) acc).map Prod.fst →
        x ∈ acc.map Prod.fst ∨ x ∈ vs.map (fun v => v.votedPlayerId) := by
  induction vs with
  | nil =>
    intro acc x h
    exact Or.inl (by simpa using h)
  | cons v vs ih =>
    intro acc x h
    rcases ih (bump acc v.votedPlayerId) x h with h2 | h2
    · rcases bump_keys_mem h2 with h3 | h3
      · exact Or.inl h3
      · exact Or.inr (by simp [h3])
    · exact Or.inr (by simp [h2])

/- Every tally candidate was named by some stored vote. -/
lemma countVotes_keys_subset {vs : List Vote} {x : Handle}
    (h : x ∈ (countVotes vs).map Prod.fst) :
    x ∈ vs.map (fun v => v.votedPlayerId) := by
  rcases countVotes_keys_subset_go vs [] x h with h2 | h2
  · simp at h2
  · exact h2

lemma award_map_id {ps : List Player} {w : Handle} (h : ∀ q ∈ ps, q.id ≠ w) :
    ps.map (fun p => if p.id = w then { p with points := p.points + 1 } else p) = ps := by
  induction ps with
  | nil => rfl
  | cons p ps ih =>
    have h1 : ¬ p.id = w := h p (List.mem_cons_self _ _)
    simp only [List.map_cons, if_neg h1]
    rw [ih (fun q hq => h q (List.mem_cons_of_mem _ hq))]

lemma awardOne_eq {ps : List Player} (w : Handle)
    (hnd : (ps.map (fun p => p.id)).Nodup) :
    awardOne ps w =
      ps.map (fun p => if p.id = w then { p with points := p.points + 1 } else p) := by
  induction ps with
  | nil => rfl
  | cons p ps ih =>
    have hnd' := hnd
    rw [List.map_cons] at hnd'
    rcases List.nodup_cons.mp hnd' with ⟨hni, hnd2⟩
    by_cases hp : p.id = w
    · simp only [awardOne, if_pos hp, List.map_cons]
      rw [award_map_id]
      intro q hq hqw
      exact hni (by
        rw [hp, ← hqw]
        exact List.mem_map_of_mem _ hq)
    · simp only [awardOne, if_neg hp, List.map_cons]
      rw [ih hnd2]

lemma awardPoints_eq {winners : List Handle} {ps : List Player}
    (hnd : (ps.map (fun p => p.id)).Nodup) (hw : winners.Nodup) :
    awardPoints ps winners =
      ps.map (fun p => if p.id ∈ winners then { p with points := p.points + 1 } else p) := by
  induction winners generalizing ps with
  | nil =>
    simp [awardPoints]
  | cons w ws ih =>
    rcases List.nodup_cons.mp hw with ⟨hwni, hwnd⟩
    show awardPoints (awardOne ps w) ws = _
    have hnd2 : ((awardOne ps w).map (fun p => p.id)).Nodup := by
      rw [awardOne_ids]
      exact hnd
    rw [ih hnd2 hwnd, awardOne_eq w hnd, List.map_map]
    apply List.map_congr_left
    intro p _
    by_cases hp : p.id = w
    · simp [Function.comp, hp, hwni]
    · by_cases hpw : p.id ∈ ws <;> simp [Function.comp, hp, hpw]

/- Invariant maintained by every handler from room creation on:
   the room always has a player, submissions never outnumber players
   (strictly fewer while gif-selection is open), and no stored vote is a
   self-vote. -/
def RoomInv (r : Room) : Prop :=
  0 < r.players.length ∧
  r.submissions.length ≤ r.players.length ∧
  (r.status = Status.gifSelection → r.submissions.length < r.players.length) ∧
  (∀ v ∈ r.votes, v.voterId ≠ v.votedPlayerId)

lemma roomInv_createRoom (roomId : String) (callerId : Handle)
    (sessionId playerName : String) :
    RoomInv (createRoom roomId callerId sessionId playerName) := by
  refine ⟨by simp [createRoom], by simp [createRoom], ?_, by simp [createRoom]⟩
  intro h
  simp [createRoom] at h

lemma roomInv_joinRoom {r : Room} (h : RoomInv r) (c : Handle) (sid pn : String) :
    RoomInv (joinRoom r c sid pn) := by
  obtain ⟨h1, h2, h3, h4⟩ := h
  rw [joinRoom]
  by_cases hs : hasSession r.players sid
  · rw [if_pos hs]
    exact ⟨by simpa [rebindFirst_length] using h1,
           by simpa [rebindFirst_length] using h2,
           by simpa [rebindFirst_length] using h3, h4⟩
  · rw [if_neg hs]
    by_cases hl : r.status ≠ Status.lobby
    · rw [if_pos hl]
      exact ⟨h1, h2, h3, h4⟩
    · rw [if_neg hl]
      push_neg at hl
      refine ⟨by simp, by simp; omega, ?_, h4⟩
      intro hg
      rw [hl] at hg
      cases hg

lemma roomInv_reconnect {r : Room} (h : RoomInv r) (sid : String) (newH : Handle) :
    RoomInv (reconnect r sid newH) := by
  obtain ⟨h1, h2, h3, h4⟩ := h
  exact ⟨by simpa [reconnect, rebindFirst_length] using h1,
         by simpa [reconnect, rebindFirst_length] using h2,
         by simpa [reconnect, rebindFirst_length] using h3,
         h4⟩

lemma roomInv_startGame {r : Room} (h : RoomInv r) (c : Handle) :
    RoomInv (startGame r c) := by
  obtain ⟨h1, h2, h3, h4⟩ := h
  rw [startGame]
  by_cases hc : r.hostId = c
  · rw [if_pos hc]
    refine ⟨h1, h2, ?_, h4⟩
    intro hg
    cases hg
  · rw [if_neg hc]
    exact ⟨h1, h2, h3, h4⟩

lemma roomInv_submitTopic {r : Room} (h : RoomInv r) (c : Handle) (t : String) :
    RoomInv (submitTopic r c t) := by
  obtain ⟨h1, h2, h3, h4⟩ := h
  rw [submitTopic]
  by_cases hc : r.winnerOfLastRound = c ∨ (r.hostId = c ∧ r.winnerOfLastRound = "")
  · rw [if_pos hc]
    exact ⟨h1, by simpa using Nat.le_of_lt h1, fun _ => h1, h4⟩
  · rw [if_neg hc]
    exact ⟨h1, h2, h3, h4⟩

lemma roomInv_submitGif {r : Room} (h : RoomInv r) (c : Handle) (url : String) :
    RoomInv (submitGif r c url) := by
  obtain ⟨h1, h2, h3, h4⟩ := h
  rw [submitGif]
  by_cases hg : r.status = Status.gifSelection
  · rw [if_pos hg]
    obtain ⟨hb1, hb2⟩ := upsertSubmission_length_bounds r.submissions c url
    have hlt : r.submissions.length < r.players.length := h3 hg
    by_cases hq : (upsertSubmission r.submissions c url).length = r.players.length
    · simp only [if_pos hq]
      refine ⟨h1, by simpa using Nat.le_of_eq hq, ?_, by simp⟩
      intro hv
      cases hv
    · simp only [if_neg hq]
      refine ⟨h1, by simp; omega, ?_, h4⟩
      intro _
      simp
      omega
  · rw [if_neg hg]
    exact ⟨h1, h2, h3, h4⟩

lemma roomInv_submitVote {r : Room} (h : RoomInv r) (c voted : Handle) :
    RoomInv (submitVote r c voted) := by
  obtain ⟨h1, h2, h3, h4⟩ := h
  rw [submitVote]
  by_cases hv : r.status = Status.voting
  · rw [if_pos hv]
    by_cases hself : voted = c
    · rw [if_pos hself]
      exact ⟨h1, h2, h3, h4⟩
    · rw [if_neg hself]
      have h4' := upsertVote_ne hself h4
      by_cases hq : (upsertVote r.votes c voted).length = r.players.length
      · simp only [if_pos hq]
        refine ⟨by simpa [awardPoints_length] using h1,
                by simpa [awardPoints_length] using h2, ?_, h4'⟩
        intro hg
        simp only at hg
        by_cases hmr : r.maxRounds ≤ r.currentRound
        · rw [if_pos hmr] at hg
          cases hg
        · rw [if_neg hmr] at hg
          cases hg
      · simp only [if_neg hq]
        refine ⟨h1, h2, ?_, h4'⟩
        intro hg
        simp only at hg
        rw [hg] at hv
        cases hv
  · rw [if_neg hv]
    exact ⟨h1, h2, h3, h4⟩

lemma roomInv_nextRound {r : Room} (h : RoomInv r) (c : Handle) :
    RoomInv (nextRound r c) := by
  obtain ⟨h1, h2, h3, h4⟩ := h
  rw [nextRound]
  by_cases hs : r.status = Status.reveal
  · rw [if_pos hs]
    refine ⟨h1, by simpa using Nat.le_of_lt h1, ?_, by simp⟩
    intro hg
    cases hg
  · rw [if_neg hs]
    exact ⟨h1, h2, h3, h4⟩

lemma roomInv_applyAction {r : Room} (h : RoomInv r) (a : GameAction) :
    RoomInv (applyAction r a) := by
  cases a with
  | join c sid pn => exact roomInv_joinRoom h c sid pn
  | rejoin sid newH => exact roomInv_reconnect h sid newH
  | start c => exact roomInv_startGame h c
  | pickTopic c t => exact roomInv_submitTopic h c t
  | gif c url => exact roomInv_submitGif h c url
  | vote c voted => exact roomInv_submitVote h c voted
  | nextR c => exact roomInv_nextRound h c

lemma roomInv_runActs (as : List GameAction) :
    ∀ {r : Room}, RoomInv r → RoomInv (runActs r as) := by
  induction as with
  | nil => intro r h; exact h
  | cons a as ih =>
    intro r h
    exact ih (roomInv_applyAction h a)

lemma roomInv_reachable {r : Room} (h : ReachableRoom r) : RoomInv r := by
  obtain ⟨roomId, callerId, sessionId, playerName, as, rfl⟩ := h
  exact roomInv_runActs as (roomInv_createRoom roomId callerId sessionId playerName)

lemma joinRoom_rejoin {r : Room} {sid : String} (h : hasSession r.players sid = true)
    (c : Handle) (pn : String) :
    joinRoom r c sid pn = { r with players := rebindFirst sid c r.players } := by
  rw [joinRoom, if_pos h]

lemma joinMany_frame {sid pn : String} :
    ∀ (calls : List Handle) (r : Room), hasSession r.players sid = true →
      (joinMany r sid pn calls).status = r.status ∧
      (joinMany r sid pn calls).currentRound = r.currentRound ∧
      (joinMany r sid pn calls).topic = r.topic ∧
      (joinMany r sid pn calls).submissions = r.submissions ∧
      (joinMany r sid pn calls).votes = r.votes ∧
      (joinMany r sid pn calls).hostId = r.hostId ∧
      (joinMany r sid pn calls).winnerOfLastRound = r.winnerOfLastRound ∧
      (joinMany r sid pn calls).players.map playerData = r.players.map playerData ∧
      (∀ p ∈ r.players, p.sessionId ≠ sid → p ∈ (joinMany r sid pn calls).players) := by
  intro calls
  induction calls with
  | nil =>
    intro r _
    exact ⟨rfl, rfl, rfl, rfl, rfl, rfl, rfl, rfl, fun p hp _ => hp⟩
  | cons c cs ih =>
    intro r h
    have hunfold : joinMany r sid pn (c :: cs) = joinMany (joinRoom r c sid pn) sid pn cs := rfl
    rw [hunfold, joinRoom_rejoin h c pn]
    have h2 : hasSession (rebindFirst sid c r.players) sid = true := by
      rw [hasSession_rebindFirst]
      exact h
    obtain ⟨i1, i2, i3, i4, i5, i6, i7, i8, i9⟩ :=
      ih { r with players := rebindFirst sid c r.players } h2
    refine ⟨i1, i2, i3, i4, i5, i6, i7, ?_, ?_⟩
    · rw [i8]
      exact rebindFirst_data sid c r.players
    · intro p hp hps
      exact i9 p (rebindFirst_mem_ne hp hps c) hps

/-- C3: for a room in any phase, a join-room call whose sessionId already
maps to a player takes the reconnection branch, which rebinds only that
player's connection handle; repeated any number of times it leaves every
player's points and the room's status, currentRound, topic, submissions
and votes unchanged. -/
theorem C3_rejoin_noop (r : Room) (sid pn : String) (c : Handle)
    (calls : List Handle) (h : hasSession r.players sid = true) :
    joinRoom r c sid pn = { r with players := rebindFirst sid c r.players } ∧
    (joinMany r sid pn calls).status = r.status ∧
    (joinMany r sid pn calls).currentRound = r.currentRound ∧
    (joinMany r sid pn calls).topic = r.topic ∧
    (joinMany r sid pn calls).submissions = r.submissions ∧
    (joinMany r sid pn calls).votes = r.votes ∧
    (joinMany r sid pn calls).players.map playerData = r.players.map playerData ∧
    (∀ p ∈ r.players, p.sessionId ≠ sid → p ∈ (joinMany r sid pn calls).players) := by
  obtain ⟨i1, i2, i3, i4, i5, _, _, i8, i9⟩ := joinMany_frame calls r h
  exact ⟨joinRoom_rejoin h c pn, i1, i2, i3, i4, i5, i8, i9⟩

theorem C3_rejoin_noop_witness :
    hasSession demoRoom.players "sa" = true ∧
    (joinMany demoRoom "sa" "A2" ["z1", "z2"]).status = demoRoom.status ∧
    (joinMany demoRoom "sa" "A2" ["z1", "z2"]).players.map playerData =
      demoRoom.players.map playerData :=
  ⟨by decide,
   (C3_rejoin_noop demoRoom "sa" "A2" "z" ["z1", "z2"] (by decide)).2.1,
   (C3_rejoin_noop demoRoom "sa" "A2" "z" ["z1", "z2"] (by decide)).2.2.2.2.2.2.1⟩

lemma upsertSubmission_filter_ne {c q : Handle} (hne : q ≠ c)
    (ss : List Submission) (url : String) :
    (upsertSubmission ss c url).filter (fun s => s.playerId == q) =
      ss.filter (fun s => s.playerId == q) := by
  induction ss with
  | nil =>
    have hcq : (({ playerId := c, gifUrl := url } : Submission).playerId == q) = false := by
      simp only [beq_eq_false_iff_ne, ne_eq]
      exact fun h => hne h.symm
    simp [upsertSubmission, List.filter_cons, hcq]
  | cons s ss ih =>
    by_cases hs : s.playerId = c
    · have h2 : (s.playerId == q) = false := by
        simp only [beq_eq_false_iff_ne, ne_eq]
        intro h
        exact hne (hs.symm.trans h).symm
      have h1 : (({ s with gifUrl := url } : Submission).playerId == q) = false := h2
      simp only [upsertSubmission, if_pos hs, List.filter_cons, h1, h2]
      simp
    · simp only [upsertSubmission, if_neg hs, List.filter_cons]
      by_cases hsq : (s.playerId == q) = true
      · simp only [hsq]
        rw [ih]
      · simp only [Bool.not_eq_true] at hsq
        simp only [hsq]
        rw [ih]

/-- C2: in every reachable room state submissions never outnumber players;
submit-gif advances gif-selection to voting exactly when the upserted
submission count equals the player count; and a repeated submit-gif by a
caller who already submitted overwrites rather than appends: the count is
unchanged, the caller's stored submission now carries the newly submitted
gifUrl, and every other player's submissions are untouched. -/
theorem C2_submission_quorum (r : Room) (h : ReachableRoom r) :
    r.submissions.length ≤ r.players.length ∧
    (∀ c url, r.status = Status.gifSelection →
      ((submitGif r c url).status = Status.voting ↔
        (upsertSubmission r.submissions c url).length = r.players.length)) ∧
    (∀ c url, r.status = Status.gifSelection → hasSubmitted r.submissions c = true →
      (submitGif r c url).submissions.length = r.submissions.length ∧
      (∃ s ∈ (submitGif r c url).submissions, s.playerId = c ∧ s.gifUrl = url) ∧
      (∀ q, q ≠ c →
        (submitGif r c url).submissions.filter (fun s => s.playerId == q) =
          r.submissions.filter (fun s => s.playerId == q))) := by
  obtain ⟨h1, h2, h3, h4⟩ := roomInv_reachable h
  refine ⟨h2, ?_, ?_⟩
  · intro c url hst
    rw [submitGif, if_pos hst]
    by_cases hq : (upsertSubmission r.submissions c url).length = r.players.length
    · simp only [if_pos hq]
      simp [hq]
    · simp only [if_neg hq]
      simp [hst, hq]
  · intro c url hst hsub
    rw [submitGif, if_pos hst]
    obtain ⟨s, hs, hsc, hsu⟩ := upsertSubmission_stores r.submissions c url
    by_cases hq : (upsertSubmission r.submissions c url).length = r.players.length
    · simp only [if_pos hq]
      exact ⟨upsertSubmission_length_of_hasSubmitted url hsub, ⟨s, hs, hsc, hsu⟩,
             fun q hq2 => upsertSubmission_filter_ne hq2 r.submissions url⟩
    · simp only [if_neg hq]
      exact ⟨upsertSubmission_length_of_hasSubmitted url hsub, ⟨s, hs, hsc, hsu⟩,
             fun q hq2 => upsertSubmission_filter_ne hq2 r.submissions url⟩

/- A 2-player room still in gif-selection, player a having one submission. -/
def gifRoom : Room :=
  runActs (createRoom "900000" "a" "sa" "A")
    [GameAction.join "b" "sb" "B", GameAction.start "a",
     GameAction.pickTopic "a" "T", GameAction.gif "a" "u1"]

theorem C2_submission_quorum_witness :
    ReachableRoom demoRoom ∧ demoRoom.submissions.length ≤ demoRoom.players.length ∧
    gifRoom.status = Status.gifSelection ∧ hasSubmitted gifRoom.submissions "a" = true ∧
    (∃ s ∈ (submitGif gifRoom "a" "u9").submissions, s.playerId = "a" ∧ s.gifUrl = "u9") :=
  ⟨⟨"900000", "a", "sa", "A",
    [GameAction.join "b" "sb" "B", GameAction.start "a",
     GameAction.pickTopic "a" "T", GameAction.gif "a" "u1", GameAction.gif "b" "u2"], rfl⟩,
   (C2_submission_quorum demoRoom
     ⟨"900000", "a", "sa", "A",
      [GameAction.join "b" "sb" "B", GameAction.start "a",
       GameAction.pickTopic "a" "T", GameAction.gif "a" "u1", GameAction.gif "b" "u2"], rfl⟩).1,
   by decide, by decide,
   ((C2_submission_quorum gifRoom
     ⟨"900000", "a", "sa", "A",
      [GameAction.join "b" "sb" "B", GameAction.start "a",
       GameAction.pickTopic "a" "T", GameAction.gif "a" "u1"], rfl⟩).2.2
     "a" "u9" (by decide) (by decide)).2.1⟩

/-- C4: in every reachable room state no stored vote is a self-vote, and a
submit-vote naming the caller's own handle leaves the room unchanged. -/
theorem C4_no_self_votes (r : Room) (h : ReachableRoom r) :
    (∀ v ∈ r.votes, v.voterId ≠ v.votedPlayerId) ∧
    (∀ c, submitVote r c c = r) := by
  obtain ⟨_, _, _, h4⟩ := roomInv_reachable h
  refine ⟨h4, ?_⟩
  intro c
  rw [submitVote]
  by_cases hst : r.status = Status.voting
  · rw [if_pos hst, if_pos rfl]
  · rw [if_neg hst]

theorem C4_no_self_votes_witness :
    ReachableRoom demoRoom1 ∧ submitVote demoRoom1 "b" "b" = demoRoom1 :=
  ⟨⟨"900000", "a", "sa", "A",
    [GameAction.join "b" "sb" "B", GameAction.start "a",
     GameAction.pickTopic "a" "T", GameAction.gif "a" "u1", GameAction.gif "b" "u2",
     GameAction.vote "a" "b"], rfl⟩,
   (C4_no_self_votes demoRoom1
     ⟨"900000", "a", "sa", "A",
      [GameAction.join "b" "sb" "B", GameAction.start "a",
       GameAction.pickTopic "a" "T", GameAction.gif "a" "u1", GameAction.gif "b" "u2",
       GameAction.vote "a" "b"], rfl⟩).2 "b"⟩

/-- C5: when a submit-vote completes the voting quorum, the resulting
status is game-over exactly when currentRound has reached maxRounds, and
reveal otherwise. -/
theorem C5_game_over_iff (r : Room) (c voted : Handle)
    (hst : r.status = Status.voting) (hne : voted ≠ c)
    (hq : (upsertVote r.votes c voted).length = r.players.length) :
    ((submitVote r c voted).status = Status.gameOver ↔
      r.maxRounds ≤ r.currentRound) ∧
    (r.currentRound < r.maxRounds →
      (submitVote r c voted).status = Status.reveal) := by
  rw [submitVote, if_pos hst, if_neg hne]
  simp only [if_pos hq]
  constructor
  · by_cases hmr : r.maxRounds ≤ r.currentRound
    · simp [hmr]
    · simp [hmr]
  · intro hlt
    have hmr : ¬ r.maxRounds ≤ r.currentRound := Nat.not_le.mpr hlt
    simp [hmr]

theorem C5_game_over_iff_witness :
    demoRoom1.status = Status.voting ∧
    demoRoom1.currentRound < demoRoom1.maxRounds ∧
    (submitVote demoRoom1 "b" "a").status = Status.reveal :=
  ⟨by decide, by decide,
   (C5_game_over_iff demoRoom1 "b" "a" (by decide) (by decide) (by decide)).2 (by decide)⟩

/- demoRoom after a vote for a handle that belongs to no player ("ghost")
   and a vote for player a: the completed tally has two winners but only
   one point is handed out. -/
def ghostRoom : Room :=
  applyAction (applyAction demoRoom (GameAction.vote "a" "ghost")) (GameAction.vote "b" "a")

/-- C1 counterexample: a completed voting phase in which the winner set
has two members while the total points handed out is one, because one
winning votedPlayerId belongs to no player; so the sum of points awarded
differs from the size of the winner set. -/
theorem C1_counterexample :
    demoRoom.status = Status.voting ∧
    ghostRoom.votes.length = ghostRoom.players.length ∧
    (selectWinners (countVotes ghostRoom.votes)).2.length = 2 ∧
    (¬ "ghost" ∈ ghostRoom.players.map (fun p => p.id)) ∧
    sumPoints ghostRoom.players = sumPoints demoRoom.players + 1 := by decide

/-- C1 (amended): when a submit-vote completes the voting quorum, the
tally maps each candidate to its occurrence count among the stored votes
and the winner set is exactly the candidates attaining the maximal count;
provided every stored vote names an actual player's id and player ids are
distinct, every winner's points increase by exactly 1, no other player's
points change, and the sum of points awarded equals the size of the
winner set (a winning votedPlayerId matching no player receives nothing,
so in general the sum equals the number of winners that are players). -/
theorem C1_amended_tally (r : Room) (c voted : Handle)
    (hst : r.status = Status.voting) (hne : voted ≠ c)
    (hq : (upsertVote r.votes c voted).length = r.players.length)
    (hnd : (r.players.map (fun p => p.id)).Nodup)
    (hv : ∀ v ∈ upsertVote r.votes c voted,
      v.votedPlayerId ∈ r.players.map (fun p => p.id)) :
    (∀ pid, lookupN (countVotes (upsertVote r.votes c voted)) pid =
      (upsertVote r.votes c voted).countP (fun v => v.votedPlayerId == pid)) ∧
    (selectWinners (countVotes (upsertVote r.votes c voted))).2 =
      argmaxKeys (countVotes (upsertVote r.votes c voted)) ∧
    (submitVote r c voted).players =
      r.players.map (fun p =>
        if p.id ∈ (selectWinners (countVotes (upsertVote r.votes c voted))).2 then
          { p with points := p.points + 1 }
        else p) ∧
    sumPoints (submitVote r c voted).players =
      sumPoints r.players +
        (selectWinners (countVotes (upsertVote r.votes c voted))).2.length := by
  have hkeysnd := countVotes_keys_nodup (upsertVote r.votes c voted)
  have hwinchar := selectWinners_eq (countVotes (upsertVote r.votes c voted))
  have hwinners_sub : ∀ x ∈ (selectWinners (countVotes (upsertVote r.votes c voted))).2,
      x ∈ (countVotes (upsertVote r.votes c voted)).map Prod.fst := by
    intro x hx
    rw [hwinchar] at hx
    simp only [argmaxKeys] at hx
    obtain ⟨e, he, rfl⟩ := List.mem_map.mp hx
    exact List.mem_map_of_mem _ (List.mem_of_mem_filter he)
  have hwinners_nd : (selectWinners (countVotes (upsertVote r.votes c voted))).2.Nodup := by
    rw [hwinchar]
    simp only [argmaxKeys]
    exact ((List.filter_sublist _).map Prod.fst).nodup hkeysnd
  have hwin_ids : ∀ x ∈ (selectWinners (countVotes (upsertVote r.votes c voted))).2,
      x ∈ r.players.map (fun p => p.id) := by
    intro x hx
    have hvx := countVotes_keys_subset (hwinners_sub x hx)
    obtain ⟨v, hvmem, rfl⟩ := List.mem_map.mp hvx
    exact hv v hvmem
  have hsv : (submitVote r c voted).players =
      awardPoints r.players (selectWinners (countVotes (upsertVote r.votes c voted))).2 := by
    rw [submitVote, if_pos hst, if_neg hne]
    simp only [if_pos hq]
  refine ⟨fun pid => countVotes_lookup _ pid, by rw [hwinchar], ?_, ?_⟩
  · rw [hsv]
    exact awardPoints_eq hnd hwinners_nd
  · rw [hsv]
    exact awardPoints_sum hwin_ids

theorem C1_amended_tally_witness :
    (demoRoom1.players.map (fun p => p.id)).Nodup ∧
    (selectWinners (countVotes (upsertVote demoRoom1.votes "b" "a"))).2.length = 2 ∧
    sumPoints (submitVote demoRoom1 "b" "a").players = sumPoints demoRoom1.players + 2 :=
  ⟨by decide, by decide, by
    have h := (C1_amended_tally demoRoom1 "b" "a" (by decide) (by decide) (by decide)
      (by decide) (by decide)).2.2.2
    rw [h]
    decide⟩

/- A freshly created one-player room. -/
def soloRoom : Room := createRoom "111111" "h" "sh" "H"

/-- C6 counterexample: start-game called by the host of a one-player room
succeeds (status becomes topic-selection, currentRound becomes 1) even
though fewer than 2 players are present; no InsufficientPlayers rejection
exists in the code. -/
theorem C6_counterexample :
    soloRoom.players.length < 2 ∧
    soloRoom.status = Status.lobby ∧
    (startGame soloRoom "h").status = Status.topicSelection ∧
    (startGame soloRoom "h").currentRound = 1 := by decide

/-- C6 (amended): start-game succeeds for exactly the callers whose handle
equals hostId, with no minimum-player check and no phase check; on success
it sets status to topic-selection and currentRound to 1, and for a
non-host caller it is a silent no-op. -/
theorem C6_amended_start_game (r : Room) (c : Handle) :
    (r.hostId = c →
      startGame r c = { r with status := Status.topicSelection, currentRound := 1 }) ∧
    (r.hostId ≠ c → startGame r c = r) := by
  constructor
  · intro h
    rw [startGame, if_pos h]
  · intro h
    rw [startGame, if_neg h]

theorem C6_amended_start_game_witness :
    soloRoom.hostId = "h" ∧
    startGame soloRoom "h" =
      { soloRoom with status := Status.topicSelection, currentRound := 1 } ∧
    soloRoom.hostId ≠ "x" ∧
    startGame soloRoom "x" = soloRoom :=
  ⟨rfl, (C6_amended_start_game soloRoom "h").1 rfl,
   by decide, (C6_amended_start_game soloRoom "x").2 (by decide)⟩

/-- C7 counterexample: submit-topic issued by the judge while the room is
in the voting phase (not topic-selection) still mutates the room, moving
it to gif-selection; the code has no phase check. -/
theorem C7_counterexample :
    demoRoom.status = Status.voting ∧
    demoRoom.winnerOfLastRound = "a" ∧
    (submitTopic demoRoom "a" "T2").status = Status.gifSelection ∧
    submitTopic demoRoom "a" "T2" ≠ demoRoom := by decide

/-- C7 (amended): submit-topic mutates the room exactly when the caller is
the judge (winnerOfLastRound equals the caller, or hostId as fallback when
winnerOfLastRound is unset), in any phase; it then sets topic, clears
submissions and sets status to gif-selection; a non-judge caller is
silently ignored with no state change. -/
theorem C7_amended_submit_topic (r : Room) (c : Handle) (t : String) :
    ((r.winnerOfLastRound = c ∨ (r.hostId = c ∧ r.winnerOfLastRound = "")) →
      submitTopic r c t =
        { r with topic := t, status := Status.gifSelection, submissions := [] }) ∧
    (¬ (r.winnerOfLastRound = c ∨ (r.hostId = c ∧ r.winnerOfLastRound = "")) →
      submitTopic r c t = r) := by
  constructor
  · intro h
    rw [submitTopic, if_pos h]
  · intro h
    rw [submitTopic, if_neg h]

theorem C7_amended_submit_topic_witness :
    (demoRoom.winnerOfLastRound = "a" ∨
      (demoRoom.hostId = "a" ∧ demoRoom.winnerOfLastRound = "")) ∧
    submitTopic demoRoom "a" "T3" =
      { demoRoom with topic := "T3", status := Status.gifSelection, submissions := [] } ∧
    ¬ (demoRoom.winnerOfLastRound = "q" ∨
      (demoRoom.hostId = "q" ∧ demoRoom.winnerOfLastRound = "")) ∧
    submitTopic demoRoom "q" "T3" = demoRoom :=
  ⟨Or.inl (by decide),
   (C7_amended_submit_topic demoRoom "a" "T3").1 (Or.inl (by decide)),
   by decide,
   (C7_amended_submit_topic demoRoom "q" "T3").2 (by decide)⟩

/- demoRoom1 after the second vote completes the round: phase reveal. -/
def revealRoom : Room := applyAction demoRoom1 (GameAction.vote "b" "a")

/-- C8 counterexample: next-round issued by a caller other than the host
while the room is in reveal still mutates the room (currentRound is
incremented and the phase moves to topic-selection); the code has no host
check on next-round. -/
theorem C8_counterexample :
    revealRoom.status = Status.reveal ∧
    revealRoom.hostId = "a" ∧
    revealRoom.hostId ≠ "b" ∧
    (nextRound revealRoom "b").currentRound = revealRoom.currentRound + 1 ∧
    (nextRound revealRoom "b").status = Status.topicSelection ∧
    nextRound revealRoom "b" ≠ revealRoom := by decide

/-- C8 (amended): next-round mutates the room exactly when the status is
reveal, regardless of the caller; it then increments currentRound by 1,
clears submissions and votes, and sets status to topic-selection; in any
other phase the room is unchanged. -/
theorem C8_amended_next_round (r : Room) (c : Handle) :
    (r.status = Status.reveal →
      nextRound r c = { r with currentRound := r.currentRound + 1,
                               status := Status.topicSelection,
                               submissions := [], votes := [] }) ∧
    (r.status ≠ Status.reveal → nextRound r c = r) := by
  constructor
  · intro h
    rw [nextRound, if_pos h]
  · intro h
    rw [nextRound, if_neg h]

theorem C8_amended_next_round_witness :
    revealRoom.status = Status.reveal ∧
    nextRound revealRoom "zzz" =
      { revealRoom with currentRound := revealRoom.currentRound + 1,
                        status := Status.topicSelection,
                        submissions := [], votes := [] } ∧
    demoRoom.status ≠ Status.reveal ∧
    nextRound demoRoom "a" = demoRoom :=
  ⟨by decide, (C8_amended_next_round revealRoom "zzz").1 (by decide),
   by decide, (C8_amended_next_round demoRoom "a").2 (by decide)⟩

/-- C9: every reconnection path touches only the matched player's id
field; hostId and winnerOfLastRound are untouched, so after the host
reconnects under a new handle the host-only and judge-only actions,
which compare against the caller's new handle, silently refuse it. -/
theorem C9_reconnect_frame (r : Room) (sid : String) (newH : Handle) (pn t : String) :
    (reconnect r sid newH).hostId = r.hostId ∧
    (reconnect r sid newH).winnerOfLastRound = r.winnerOfLastRound ∧
    (reconnect r sid newH).players.map playerData = r.players.map playerData ∧
    (joinRoom r newH sid pn).hostId = r.hostId ∧
    (joinRoom r newH sid pn).winnerOfLastRound = r.winnerOfLastRound ∧
    (r.hostId ≠ newH → startGame (reconnect r sid newH) newH = reconnect r sid newH) ∧
    (r.winnerOfLastRound ≠ newH → r.hostId ≠ newH →
      submitTopic (reconnect r sid newH) newH t = reconnect r sid newH) := by
  refine ⟨rfl, rfl, rebindFirst_data sid newH r.players, ?_, ?_, ?_, ?_⟩
  · rw [joinRoom]
    split_ifs <;> rfl
  · rw [joinRoom]
    split_ifs <;> rfl
  · intro h
    have h2 : (reconnect r sid newH).hostId ≠ newH := h
    rw [startGame, if_neg h2]
  · intro hw hh
    have hcond : ¬ ((reconnect r sid newH).winnerOfLastRound = newH ∨
        ((reconnect r sid newH).hostId = newH ∧
          (reconnect r sid newH).winnerOfLastRound = "")) := by
      intro hc
      rcases hc with hc | ⟨hc, _⟩
      · exact hw hc
      · exact hh hc
    rw [submitTopic, if_neg hcond]

theorem C9_reconnect_frame_witness :
    demoRoom.hostId ≠ "z" ∧
    (reconnect demoRoom "sa" "z").hostId = demoRoom.hostId ∧
    startGame (reconnect demoRoom "sa" "z") "z" = reconnect demoRoom "sa" "z" :=
  ⟨by decide,
   (C9_reconnect_frame demoRoom "sa" "z" "P" "T9").1,
   (C9_reconnect_frame demoRoom "sa" "z" "P" "T9").2.2.2.2.2.1 (by decide)⟩

/- A 2-player room in gif-selection that an outsider x (not a player)
   submits into, followed by player a: quorum is reached without b. -/
def outsiderRoom : Room :=
  runActs (createRoom "222222" "a" "sa" "A")
    [GameAction.join "b" "sb" "B", GameAction.start "a",
     GameAction.pickTopic "a" "T", GameAction.gif "x" "ux", GameAction.gif "a" "ua"]

/-- C10: submit-gif does not require the caller to be a player of the
room: an outsider's submission is stored under the outsider's handle and
counts toward the quorum, so the phase advances to voting although player
b never submitted. -/
theorem C10_outsider_submission :
    outsiderRoom.status = Status.voting ∧
    outsiderRoom.players.map (fun p => p.id) = ["a", "b"] ∧
    outsiderRoom.submissions.map (fun s => s.playerId) = ["x", "a"] ∧
    (¬ "x" ∈ outsiderRoom.players.map (fun p => p.id)) ∧
    hasSubmitted outsiderRoom.submissions "b" = false := by decide
